import Mathlib

/-
  Verification development for the pixel-poll firmware.

  The Python sources under src/ are shallowly embedded:
    * src/controller/threadsafe_queue.py  -> Queue (ring buffer, sync ops)
    * src/central/ble_vote_manager.py     -> MgrState and its IRQ handlers
    * src/controller/ble_vote_controller.py -> CtrlState and send
    * src/common/consts.py                -> VoteCommand / VoteInfo byte values

  Machine behaviour (MicroPython) is modelled with Lists and Nats; Python
  `%` on ints is Int.emod (non-negative result for positive modulus);
  bytes objects are List Nat; dicts are association lists with first-key
  lookup/replace semantics; raising is an explicit Bool / Option.
-/

namespace PixelPoll

/-! ## Generic helpers mirroring Python primitives -/

/-- Python `a in l` for a list. -/
def listMem {α : Type} [DecidableEq α] : List α → α → Bool
  | [], _ => false
  | x :: xs, a => if x = a then true else listMem xs a

/-- Number of occurrences of a value in a list. -/
def countVal {α : Type} [DecidableEq α] : List α → α → Nat
  | [], _ => 0
  | x :: xs, a => (if x = a then 1 else 0) + countVal xs a

/-- Python `list.remove` wrapped in try/except ValueError: removes the first
occurrence if present, otherwise leaves the list unchanged. -/
def removeFirst {α : Type} [DecidableEq α] : List α → α → List α
  | [], _ => []
  | x :: xs, a => if x = a then xs else x :: removeFirst xs a

theorem listMem_iff {α : Type} [DecidableEq α] (l : List α) (a : α) :
    listMem l a = true ↔ a ∈ l := by
  induction l with
  | nil => simp [listMem]
  | cons x xs ih =>
    by_cases hx : x = a
    · subst hx; simp [listMem]
    · simp [listMem, hx, ih, Ne.symm hx]

theorem countVal_append {α : Type} [DecidableEq α] (l₁ l₂ : List α) (a : α) :
    countVal (l₁ ++ l₂) a = countVal l₁ a + countVal l₂ a := by
  induction l₁ with
  | nil => simp [countVal]
  | cons x xs ih => simp [countVal, ih]; omega

theorem countVal_removeFirst_ge {α : Type} [DecidableEq α] (l : List α) (b a : α) :
    countVal l a ≤ countVal (removeFirst l b) a + (if b = a then 1 else 0) := by
  induction l with
  | nil => simp [countVal, removeFirst]
  | cons x xs ih =>
    by_cases hx : x = b
    · subst hx; simp [removeFirst, countVal]; omega
    · simp [removeFirst, hx, countVal]; omega

theorem countVal_eq_zero_of_not_mem {α : Type} [DecidableEq α] (l : List α) (a : α)
    (h : a ∉ l) : countVal l a = 0 := by
  induction l with
  | nil => rfl
  | cons x xs ih =>
    simp only [List.mem_cons, not_or] at h
    simp [countVal, Ne.symm h.1, ih h.2]

theorem countVal_pos_of_mem {α : Type} [DecidableEq α] (l : List α) (a : α)
    (h : a ∈ l) : 0 < countVal l a := by
  induction l with
  | nil => simp at h
  | cons x xs ih =>
    rcases List.mem_cons.mp h with h1 | h2
    · simp [countVal, h1.symm]
    · have := ih h2; simp [countVal]; omega

theorem countVal_removeFirst_self {α : Type} [DecidableEq α] (l : List α) (a : α) :
    countVal (removeFirst l a) a = countVal l a - 1 := by
  induction l with
  | nil => simp [removeFirst, countVal]
  | cons x xs ih =>
    by_cases hx : x = a
    · subst hx; simp [removeFirst, countVal]
    · simp [removeFirst, hx, countVal, ih]

theorem not_mem_removeFirst_of_count_le_one {α : Type} [DecidableEq α]
    (l : List α) (a : α) (h : countVal l a ≤ 1) : a ∉ removeFirst l a := by
  intro hmem
  have h1 := countVal_pos_of_mem (removeFirst l a) a hmem
  have h2 := countVal_removeFirst_self l a
  omega

/-- Python bytes method underlying `needle in hay`: does `hay` start with `needle`. -/
def startsWithBytes : List Nat → List Nat → Bool
  | [], _ => true
  | _ :: _, [] => false
  | n :: ns, h :: hs => if n = h then startsWithBytes ns hs else false

/-- Python `needle in hay` on bytes: contiguous subsequence test. -/
def containsBytes (needle : List Nat) : List Nat → Bool
  | [] => startsWithBytes needle []
  | h :: hs => startsWithBytes needle (h :: hs) || containsBytes needle hs

theorem startsWithBytes_iff : ∀ (n h : List Nat),
    startsWithBytes n h = true ↔ ∃ post, h = n ++ post
  | [], h => by simp [startsWithBytes]
  | a :: as, [] => by simp [startsWithBytes]
  | a :: as, b :: bs => by
    simp only [startsWithBytes]
    by_cases hab : a = b
    · subst hab
      rw [if_pos rfl, startsWithBytes_iff as bs]
      constructor
      · rintro ⟨post, rfl⟩; exact ⟨post, rfl⟩
      · rintro ⟨post, hp⟩
        rw [List.cons_append] at hp
        exact ⟨post, (List.cons.injEq _ _ _ _).mp hp |>.2⟩
    · rw [if_neg hab]
      constructor
      · intro h; exact absurd h (by simp)
      · rintro ⟨post, hp⟩
        rw [List.cons_append] at hp
        exact absurd ((List.cons.injEq _ _ _ _).mp hp).1.symm hab

theorem containsBytes_iff : ∀ (n h : List Nat),
    containsBytes n h = true ↔ ∃ pre post, h = pre ++ n ++ post
  | n, [] => by
    simp only [containsBytes, startsWithBytes_iff]
    constructor
    · rintro ⟨post, hp⟩; exact ⟨[], post, by simpa using hp⟩
    · rintro ⟨pre, post, hp⟩
      have h3 : pre = [] ∧ n = [] ∧ post = [] := by simpa using hp.symm
      exact ⟨post, by simp [h3.2.1, h3.2.2]⟩
  | n, b :: bs => by
    simp only [containsBytes, Bool.or_eq_true, startsWithBytes_iff,
      containsBytes_iff n bs]
    constructor
    · rintro (⟨post, hp⟩ | ⟨pre, post, hp⟩)
      · exact ⟨[], post, by simpa using hp⟩
      · exact ⟨b :: pre, post, by simp [hp]⟩
    · rintro ⟨pre, post, hp⟩
      cases pre with
      | nil => exact Or.inl ⟨post, by simpa using hp⟩
      | cons p ps =>
        right
        rw [List.cons_append, List.cons_append] at hp
        have := (List.cons.injEq _ _ _ _).mp hp
        exact ⟨ps, post, by simp [this.2]⟩

/-! ## ThreadSafeQueue (src/controller/threadsafe_queue.py)

The queue state holds the backing array, write index, read index, and the
two ThreadSafeFlag signals (data available / get-side signal).  The
buffer capacity `self._size` is `q.length`, fixed at construction. -/

structure Queue (α : Type) where
  q : List α
  wi : Nat
  ri : Nat
  evput : Bool
  evget : Bool
deriving Repr, DecidableEq

/-- ThreadSafeQueue.full. -/
def Queue.full {α : Type} (s : Queue α) : Bool :=
  (s.wi + 1) % s.q.length == s.ri

/-- ThreadSafeQueue.empty. -/
def Queue.isEmptyQ {α : Type} (s : Queue α) : Bool :=
  s.ri == s.wi

/-- ThreadSafeQueue.qsize: Python int `%` is Int.emod. -/
def Queue.qsize {α : Type} (s : Queue α) : Nat :=
  (((s.wi : Int) - (s.ri : Int)) % (s.q.length : Int)).toNat

/-- ThreadSafeQueue.put_sync with block=False.  The value is stored at the
write slot and the data-available flag raised BEFORE the full check; the
returned Bool is true when IndexError is raised (queue was full). -/
def Queue.putSync {α : Type} (s : Queue α) (v : α) : Queue α × Bool :=
  if Queue.full ⟨s.q.set s.wi v, s.wi, s.ri, true, s.evget⟩ then
    (⟨s.q.set s.wi v, s.wi, s.ri, true, s.evget⟩, true)
  else
    (⟨s.q.set s.wi v, (s.wi + 1) % (s.q.set s.wi v).length, s.ri, true, s.evget⟩,
      false)

/-- ThreadSafeQueue.get_sync with block=False: none models the IndexError
raised on an empty queue. -/
def Queue.getSync {α : Type} [Inhabited α] (s : Queue α) : Option (α × Queue α) :=
  if s.isEmptyQ then none
  else
    some (s.q.getD s.ri default,
      ⟨s.q, s.wi, (s.ri + 1) % s.q.length, s.evput, true⟩)

/-- ThreadSafeQueue.__init__ with an int buffer argument. -/
def mkQueue (n : Nat) : Queue Nat :=
  ⟨List.replicate n 0, 0, 0, false, false⟩

/-- Run a sequence of non-blocking put_sync calls; none if any raises. -/
def runPuts : Queue Nat → List Nat → Option (Queue Nat)
  | s, [] => some s
  | s, v :: vs =>
    if (s.putSync v).2 then none else runPuts (s.putSync v).1 vs

/-- Run n non-blocking get_sync calls collecting results; none if any raises. -/
def runGets : Queue Nat → Nat → Option (List Nat)
  | _, 0 => some []
  | s, n + 1 =>
    match s.getSync with
    | none => none
    | some (v, s1) => (runGets s1 n).map (fun vs => v :: vs)

theorem set_append_len {α : Type} (acc : List α) (x : α) (l : List α) (v : α) :
    (acc ++ x :: l).set acc.length v = acc ++ v :: l := by
  induction acc with
  | nil => rfl
  | cons a as ih => simp [List.set, ih]

theorem getD_append_len {α : Type} [Inhabited α] (acc : List α) (x : α)
    (l : List α) : (acc ++ x :: l).getD acc.length default = x := by
  induction acc with
  | nil => rfl
  | cons a as ih => simpa using ih

theorem runPuts_acc : ∀ (vs acc rest : List Nat) (e1 e2 : Bool),
    vs.length + 1 ≤ rest.length →
    ∃ f1 f2, runPuts ⟨acc ++ rest, acc.length, 0, e1, e2⟩ vs =
      some ⟨acc ++ vs ++ rest.drop vs.length, acc.length + vs.length, 0, f1, f2⟩
  | [], acc, rest, e1, e2, _ => ⟨e1, e2, by simp [runPuts]⟩
  | v :: vs, acc, rest, e1, e2, h => by
    cases rest with
    | nil => simp at h
    | cons r0 rest =>
      have hlen2 : vs.length + 1 ≤ rest.length := by
        simp only [List.length_cons] at h; omega
      have hset : (acc ++ r0 :: rest).set acc.length v = acc ++ v :: rest :=
        set_append_len acc r0 rest v
      have hK : (acc ++ v :: rest).length = acc.length + rest.length + 1 := by
        simp only [List.length_append, List.length_cons]; omega
      have hlt : acc.length + 1 < acc.length + rest.length + 1 := by
        simp only [List.length_cons] at h; omega
      have hmod : (acc.length + 1) % (acc ++ v :: rest).length = acc.length + 1 := by
        rw [hK]; exact Nat.mod_eq_of_lt hlt
      have hfull :
          ((⟨acc ++ v :: rest, acc.length, 0, true, e2⟩ : Queue Nat).full) = false := by
        simp only [Queue.full, hmod]
        simp only [List.length_cons] at h
        simp only [beq_eq_false_iff_ne, ne_eq]
        omega
      have hput : (⟨acc ++ r0 :: rest, acc.length, 0, e1, e2⟩ : Queue Nat).putSync v
          = (⟨acc ++ v :: rest, acc.length + 1, 0, true, e2⟩, false) := by
        simp only [Queue.putSync, hset]
        rw [if_neg (by rw [hfull]; simp), hmod]
      have hstep : runPuts ⟨acc ++ r0 :: rest, acc.length, 0, e1, e2⟩ (v :: vs)
          = runPuts ⟨acc ++ v :: rest, acc.length + 1, 0, true, e2⟩ vs := by
        simp only [runPuts, hput]
        simp
      rcases runPuts_acc vs (acc ++ [v]) rest true e2 hlen2 with ⟨f1, f2, hrec⟩
      refine ⟨f1, f2, ?_⟩
      rw [hstep]
      have hstate : (⟨acc ++ v :: rest, acc.length + 1, 0, true, e2⟩ : Queue Nat)
          = ⟨(acc ++ [v]) ++ rest, (acc ++ [v]).length, 0, true, e2⟩ := by
        simp
      rw [hstate, hrec]
      have hq2 : (acc ++ [v]) ++ vs ++ rest.drop vs.length
          = acc ++ (v :: vs) ++ (r0 :: rest).drop (v :: vs).length := by
        simp [List.append_assoc]
      have hw2 : (acc ++ [v]).length + vs.length = acc.length + (v :: vs).length := by
        simp only [List.length_append, List.length_cons, List.length_nil]; omega
      rw [hq2, hw2]

theorem runGets_done : ∀ (togo done tail : List Nat) (e1 e2 : Bool),
    1 ≤ tail.length →
    runGets ⟨done ++ togo ++ tail, done.length + togo.length, done.length, e1, e2⟩
      togo.length = some togo
  | [], done, tail, e1, e2, _ => by simp [runGets]
  | v :: togo, done, tail, e1, e2, ht => by
    have hq : done ++ (v :: togo) ++ tail = done ++ v :: (togo ++ tail) := by
      simp
    have hne : ¬ ((⟨done ++ (v :: togo) ++ tail, done.length + (togo.length + 1),
        done.length, e1, e2⟩ : Queue Nat).isEmptyQ = true) := by
      simp only [Queue.isEmptyQ, beq_iff_eq]
      omega
    have hlen : (done ++ (v :: togo) ++ tail).length
        = done.length + togo.length + 1 + tail.length := by
      simp only [List.length_append, List.length_cons]; omega
    have hri : (done.length + 1) % (done ++ (v :: togo) ++ tail).length
        = done.length + 1 := by
      rw [hlen]; apply Nat.mod_eq_of_lt; omega
    have hget : (done ++ (v :: togo) ++ tail).getD done.length default = v := by
      rw [hq]; exact getD_append_len done v (togo ++ tail)
    have hstate : (⟨done ++ (v :: togo) ++ tail, done.length + (togo.length + 1),
        done.length + 1, e1, true⟩ : Queue Nat)
        = ⟨(done ++ [v]) ++ togo ++ tail, (done ++ [v]).length + togo.length,
            (done ++ [v]).length, e1, true⟩ := by
      congr 1
      · simp
      · simp only [List.length_append, List.length_cons, List.length_nil]; omega
      · simp
    have hgs : (⟨done ++ (v :: togo) ++ tail, done.length + (togo.length + 1),
        done.length, e1, e2⟩ : Queue Nat).getSync
        = some (v, ⟨(done ++ [v]) ++ togo ++ tail, (done ++ [v]).length + togo.length,
            (done ++ [v]).length, e1, true⟩) := by
      simp only [Queue.getSync]
      rw [if_neg hne, hget, hri, hstate]
    have hrec := runGets_done togo (done ++ [v]) tail e1 true ht
    simp only [List.length_cons, runGets, hgs]
    rw [hrec]
    rfl

/-- C3: strict FIFO round trip through the ring buffer.  From the empty
queue of capacity K, the K-1 non-blocking puts all succeed, a K-th
non-blocking put of any value raises, and K-1 gets return the values in
insertion order. -/
theorem C3_queue_roundtrip (K : Nat) (vs : List Nat) (hK : 2 ≤ K)
    (hlen : vs.length = K - 1) :
    ∃ s1, runPuts (mkQueue K) vs = some s1
      ∧ (∀ w : Nat, (s1.putSync w).2 = true)
      ∧ runGets s1 (K - 1) = some vs := by
  have hrep : (List.replicate K 0).length = K := by simp
  rcases runPuts_acc vs [] (List.replicate K 0) false false
    (by rw [hrep]; omega) with ⟨f1, f2, hput⟩
  have hdrop : (List.replicate K 0).drop vs.length = [0] := by
    rw [List.drop_replicate]
    have h1 : K - vs.length = 1 := by omega
    rw [h1]
    simp
  refine ⟨⟨vs ++ [0], vs.length, 0, f1, f2⟩, ?_, ?_, ?_⟩
  · have : runPuts (mkQueue K) vs = some ⟨vs ++ [0], vs.length, 0, f1, f2⟩ := by
      simpa [mkQueue, hdrop] using hput
    exact this
  · intro w
    have hc : Queue.full ⟨(vs ++ [0]).set vs.length w, vs.length, 0, true, f2⟩
        = true := by
      simp [Queue.full, Nat.mod_self]
    simp only [Queue.putSync]
    rw [if_pos hc]
  · have := runGets_done vs [] [0] f1 f2 (by simp)
    rw [← hlen]
    simpa using this

theorem getD_set_ne {α : Type} [Inhabited α] :
    ∀ (l : List α) (i j : Nat) (v : α), j ≠ i →
      (l.set i v).getD j default = l.getD j default
  | [], _, _, _, _ => rfl
  | x :: xs, 0, 0, v, h => absurd rfl h
  | x :: xs, 0, j + 1, v, _ => rfl
  | x :: xs, i + 1, 0, v, _ => rfl
  | x :: xs, i + 1, j + 1, v, h => by
    simp only [List.set, List.getD_cons_succ]
    exact getD_set_ne xs i j v (fun hh => h (by rw [hh]))

theorem runGets_congr : ∀ (n : Nat) (t u : Queue Nat),
    t.wi = u.wi → t.ri = u.ri → t.q.length = u.q.length →
    (∀ j, j ≠ t.wi → t.q.getD j default = u.q.getD j default) →
    runGets t n = runGets u n
  | 0, _, _, _, _, _, _ => rfl
  | n + 1, t, u, hwi, hri, hlen, hq => by
    have hemp : t.isEmptyQ = u.isEmptyQ := by
      simp [Queue.isEmptyQ, hwi, hri]
    by_cases he : t.isEmptyQ = true
    · have hue : u.isEmptyQ = true := hemp ▸ he
      simp [runGets, Queue.getSync, he, hue]
    · have hue : ¬ (u.isEmptyQ = true) := by rw [← hemp]; exact he
      have hne : t.ri ≠ t.wi := by
        intro hc
        exact he (by simp [Queue.isEmptyQ, hc])
      have hval : t.q.getD t.ri default = u.q.getD u.ri default := by
        rw [← hri]; exact hq t.ri hne
      have hgs : t.getSync = some (u.q.getD u.ri default,
          ⟨t.q, t.wi, (t.ri + 1) % t.q.length, t.evput, true⟩) := by
        simp only [Queue.getSync]
        rw [if_neg he, hval]
      have hgsu : u.getSync = some (u.q.getD u.ri default,
          ⟨u.q, u.wi, (u.ri + 1) % u.q.length, u.evput, true⟩) := by
        simp only [Queue.getSync]
        rw [if_neg hue]
      have hrec := runGets_congr n
        ⟨t.q, t.wi, (t.ri + 1) % t.q.length, t.evput, true⟩
        ⟨u.q, u.wi, (u.ri + 1) % u.q.length, u.evput, true⟩
        hwi (by simp [hri, hlen]) (by simpa using hlen)
        (fun j hj => hq j hj)
      simp only [runGets, hgs, hgsu]
      rw [hrec]

/-- C9: a non-blocking put_sync on a full queue raises, leaves the write
index, read index and qsize unchanged, modifies only the backing slot at
the write index and the data-available flag, and does not change the
result of any subsequent sequence of get_sync calls (the rejected value
is never returned unless a later successful put republishes the slot). -/
theorem C9_put_full_frame (s : Queue Nat) (v : Nat) (n : Nat)
    (hfull : s.full = true) :
    (s.putSync v).2 = true
    ∧ (s.putSync v).1.wi = s.wi
    ∧ (s.putSync v).1.ri = s.ri
    ∧ (s.putSync v).1.qsize = s.qsize
    ∧ (s.putSync v).1.q = s.q.set s.wi v
    ∧ (s.putSync v).1.evget = s.evget
    ∧ (s.putSync v).1.evput = true
    ∧ runGets (s.putSync v).1 n = runGets s n := by
  have hfull1 : Queue.full ⟨s.q.set s.wi v, s.wi, s.ri, true, s.evget⟩ = true := by
    simp only [Queue.full, List.length_set]
    exact hfull
  have hps : s.putSync v = (⟨s.q.set s.wi v, s.wi, s.ri, true, s.evget⟩, true) := by
    simp only [Queue.putSync]
    rw [if_pos hfull1]
  rw [hps]
  refine ⟨rfl, rfl, rfl, ?_, rfl, rfl, rfl, ?_⟩
  · simp [Queue.qsize, List.length_set]
  · exact runGets_congr n ⟨s.q.set s.wi v, s.wi, s.ri, true, s.evget⟩ s rfl rfl
      (by simp) (fun j hj => getD_set_ne s.q s.wi j v hj)

/-- C9 witness: a concrete full queue of capacity 2. -/
theorem C9_put_full_frame_witness :
    ((⟨[5, 6], 1, 0, false, false⟩ : Queue Nat).full = true)
    ∧ (((⟨[5, 6], 1, 0, false, false⟩ : Queue Nat).putSync 7).2 = true
      ∧ ((⟨[5, 6], 1, 0, false, false⟩ : Queue Nat).putSync 7).1.wi
          = (⟨[5, 6], 1, 0, false, false⟩ : Queue Nat).wi
      ∧ ((⟨[5, 6], 1, 0, false, false⟩ : Queue Nat).putSync 7).1.ri
          = (⟨[5, 6], 1, 0, false, false⟩ : Queue Nat).ri
      ∧ ((⟨[5, 6], 1, 0, false, false⟩ : Queue Nat).putSync 7).1.qsize
          = (⟨[5, 6], 1, 0, false, false⟩ : Queue Nat).qsize
      ∧ ((⟨[5, 6], 1, 0, false, false⟩ : Queue Nat).putSync 7).1.q
          = ([5, 6] : List Nat).set 1 7
      ∧ ((⟨[5, 6], 1, 0, false, false⟩ : Queue Nat).putSync 7).1.evget
          = (⟨[5, 6], 1, 0, false, false⟩ : Queue Nat).evget
      ∧ ((⟨[5, 6], 1, 0, false, false⟩ : Queue Nat).putSync 7).1.evput = true
      ∧ runGets ((⟨[5, 6], 1, 0, false, false⟩ : Queue Nat).putSync 7).1 3
          = runGets (⟨[5, 6], 1, 0, false, false⟩ : Queue Nat) 3) :=
  ⟨by decide, C9_put_full_frame ⟨[5, 6], 1, 0, false, false⟩ 7 3 (by decide)⟩

/-- C3 witness at K = 3, vs = [10, 20]. -/
theorem C3_queue_roundtrip_witness :
    (2 ≤ 3 ∧ ([10, 20] : List Nat).length = 3 - 1)
    ∧ ∃ s1, runPuts (mkQueue 3) [10, 20] = some s1
      ∧ (∀ w : Nat, (s1.putSync w).2 = true)
      ∧ runGets s1 (3 - 1) = some [10, 20] :=
  ⟨⟨by decide, by decide⟩, C3_queue_roundtrip 3 [10, 20] (by decide) (by decide)⟩

/-! ## Central manager (src/central/ble_vote_manager.py)

BLE UUIDs are an opaque enumeration: the three 128-bit application UUIDs
plus arbitrary foreign ones.  The raw byte form of the service UUID
(`_VOTE_SVC_UUID_BIN = bytes(VOTE_SVC_UUID)`) is the 128-bit value of
"12345678-1234-5678-1234-56789abcdef0" in MicroPython (little-endian)
byte order; only its identity matters to the proofs. -/

inductive BleUuid where
  | voteSvc
  | voteNotify
  | voteWrite
  | other (n : Nat)
deriving Repr, DecidableEq

def voteSvcUuidBin : List Nat :=
  [0xf0, 0xde, 0xbc, 0x9a, 0x78, 0x56, 0x34, 0x12,
   0x78, 0x56, 0x34, 0x12, 0x78, 0x56, 0x34, 0x12]

/-- Book-keeping record `_Peer` for each connected ESP32. -/
structure Peer where
  addr : List Nat
  connHandle : Int
  txHandle : Option Nat
  rxHandle : Option Nat
  svcRange : Option (Nat × Nat)
deriving Repr, DecidableEq

/-- _Peer.__init__: only the address is set; conn_handle starts at -1. -/
def mkPeer (addr : List Nat) : Peer := ⟨addr, -1, none, none, none⟩

/-- Python dict lookup `d.get(k)` on the conn_handle -> _Peer mapping. -/
def dictGet : List (Nat × Peer) → Nat → Option Peer
  | [], _ => none
  | (k0, p0) :: rest, k => if k0 = k then some p0 else dictGet rest k

/-- Python dict assignment `d[k] = p`: replace an existing key in place,
append a fresh key (insertion order preserved). -/
def dictInsert : List (Nat × Peer) → Nat → Peer → List (Nat × Peer)
  | [], k, p => [(k, p)]
  | (k0, p0) :: rest, k, p =>
    if k0 = k then (k, p) :: rest else (k0, p0) :: dictInsert rest k p

/-- Python `d.pop(k, None)` restricted to the mapping part. -/
def dictPop : List (Nat × Peer) → Nat → List (Nat × Peer)
  | [], _ => []
  | (k0, p0) :: rest, k => if k0 = k then rest else (k0, p0) :: dictPop rest k

/-- In-place mutation of the _Peer stored under an existing key. -/
def dictModify : List (Nat × Peer) → Nat → (Peer → Peer) → List (Nat × Peer)
  | [], _, _ => []
  | (k0, p0) :: rest, k, f =>
    if k0 = k then (k0, f p0) :: rest else (k0, p0) :: dictModify rest k f

/-- BleVoteManager mutable state: max_peers, the conn_handle -> _Peer dict,
the connected-address list, and the _connecting flag. -/
structure MgrState where
  maxPeers : Nat
  peers : List (Nat × Peer)
  peerAddrs : List (List Nat)
  connecting : Bool
deriving Repr, DecidableEq

/-- Radio-stack operations the manager issues (gap_scan / gap_connect /
gattc_discover / gattc_write calls and the on_rx callback). -/
inductive RadioOp where
  | scanFast
  | scanSlow
  | scanStop
  | gapConnect (addrType : Nat) (addr : List Nat)
  | discoverServices (conn : Nat)
  | discoverCharacteristics (conn startH endH : Nat)
  | gattcWrite (conn handle : Nat) (value : List Nat) (mode : Nat)
  | rxCallback (conn : Nat) (payload : List Nat)
deriving Repr, DecidableEq

/-- The pre-packed CCCD payload `_ENABLE_NOTIFY = b"\x01\x00"` (0x0001 LE). -/
def enableNotify : List Nat := [1, 0]

/-- BleVoteManager.__init__ state (before the initial fast scan). -/
def mkMgr (maxPeers : Nat) : MgrState := ⟨maxPeers, [], [], false⟩

/-- The guard of _handle_scan_result, in source order:
len(peers) < max_peers and UUID bytes in adv_data and addr not tracked. -/
def scanTriggers (m : MgrState) (addr advData : List Nat) : Bool :=
  decide (m.peers.length < m.maxPeers)
    && containsBytes voteSvcUuidBin advData
    && !(listMem m.peerAddrs addr)

/-- BleVoteManager._handle_scan_result. -/
def handleScanResult (m : MgrState) (addrType : Nat) (addr advData : List Nat) :
    MgrState × List RadioOp :=
  if scanTriggers m addr advData then
    (⟨m.maxPeers, m.peers, m.peerAddrs, true⟩,
      [RadioOp.scanStop, RadioOp.gapConnect addrType addr])
  else (m, [])

/-- BleVoteManager._handle_scan_done. -/
def handleScanDone (m : MgrState) : MgrState × List RadioOp :=
  if m.connecting then (m, []) else (m, [RadioOp.scanSlow])

/-- BleVoteManager._handle_peripheral_connect. -/
def handlePeripheralConnect (m : MgrState) (conn addrType : Nat)
    (addr : List Nat) : MgrState × List RadioOp :=
  (⟨m.maxPeers,
    dictInsert m.peers conn ⟨addr, (conn : Int), none, none, none⟩,
    m.peerAddrs ++ [addr], m.connecting⟩,
   [RadioOp.discoverServices conn])

/-- BleVoteManager._handle_gattc_service_result.  On a missing conn_handle
the Python subscript raises KeyError before any mutation, so the
observable state is unchanged, which is what dictModify yields. -/
def handleGattcServiceResult (m : MgrState) (conn startH endH : Nat)
    (uuid : BleUuid) : MgrState × List RadioOp :=
  if uuid = BleUuid.voteSvc then
    (⟨m.maxPeers,
      dictModify m.peers conn
        (fun p => ⟨p.addr, p.connHandle, p.txHandle, p.rxHandle,
          some (startH, endH)⟩),
      m.peerAddrs, m.connecting⟩, [])
  else (m, [])

/-- BleVoteManager._handle_gattc_service_done. -/
def handleGattcServiceDone (m : MgrState) (conn status : Nat) :
    MgrState × List RadioOp :=
  match dictGet m.peers conn with
  | none => (m, [])
  | some p =>
    if status ≠ 0 then (m, [])
    else
      match p.svcRange with
      | none => (m, [])
      | some (s, e) => (m, [RadioOp.discoverCharacteristics conn s e])

/-- BleVoteManager._handle_gattc_characteristic_result. -/
def handleGattcCharacteristicResult (m : MgrState)
    (conn defH valueH props : Nat) (uuid : BleUuid) : MgrState × List RadioOp :=
  match dictGet m.peers conn with
  | none => (m, [])
  | some _ =>
    if uuid = BleUuid.voteNotify then
      (⟨m.maxPeers,
        dictModify m.peers conn
          (fun p => ⟨p.addr, p.connHandle, p.txHandle, some valueH, p.svcRange⟩),
        m.peerAddrs, m.connecting⟩, [])
    else if uuid = BleUuid.voteWrite then
      (⟨m.maxPeers,
        dictModify m.peers conn
          (fun p => ⟨p.addr, p.connHandle, some valueH, p.rxHandle, p.svcRange⟩),
        m.peerAddrs, m.connecting⟩, [])
    else (m, [])

/-- BleVoteManager._handle_gattc_characteristic_done. -/
def handleGattcCharacteristicDone (m : MgrState) (conn status : Nat) :
    MgrState × List RadioOp :=
  match dictGet m.peers conn with
  | none => (m, [])
  | some p =>
    if status ≠ 0 then (m, [])
    else
      match p.rxHandle with
      | none => (m, [])
      | some rx =>
        (⟨m.maxPeers, m.peers, m.peerAddrs, false⟩,
          RadioOp.gattcWrite conn (rx + 1) enableNotify 1 ::
            (if m.peers.length < m.maxPeers then [RadioOp.scanFast] else []))

/-- BleVoteManager._handle_gattc_notify. -/
def handleGattcNotify (m : MgrState) (conn valueH : Nat) (payload : List Nat) :
    MgrState × List RadioOp :=
  (m, [RadioOp.rxCallback conn payload])

/-- BleVoteManager._handle_peripheral_disconnect. -/
def handlePeripheralDisconnect (m : MgrState) (conn addrType : Nat)
    (addr : List Nat) : MgrState × List RadioOp :=
  match dictGet m.peers conn with
  | none => (⟨m.maxPeers, m.peers, m.peerAddrs, false⟩, [RadioOp.scanFast])
  | some p =>
    (⟨m.maxPeers, dictPop m.peers conn, removeFirst m.peerAddrs p.addr, false⟩,
      [RadioOp.scanFast])

theorem dictGet_eq_none_of_not_mem (d : List (Nat × Peer)) (k : Nat)
    (h : k ∉ d.map Prod.fst) : dictGet d k = none := by
  induction d with
  | nil => rfl
  | cons e rest ih =>
    obtain ⟨k0, p0⟩ := e
    simp only [List.map_cons, List.mem_cons, not_or] at h
    have hne : ¬ (k0 = k) := fun hh => h.1 hh.symm
    simp only [dictGet, if_neg hne]
    exact ih h.2

theorem dictGet_dictPop (d : List (Nat × Peer)) (k : Nat)
    (h : (d.map Prod.fst).Nodup) : dictGet (dictPop d k) k = none := by
  induction d with
  | nil => rfl
  | cons e rest ih =>
    obtain ⟨k0, p0⟩ := e
    rw [List.map_cons, List.nodup_cons] at h
    by_cases hk : k0 = k
    · subst hk
      simp only [dictPop, if_pos rfl]
      exact dictGet_eq_none_of_not_mem rest k0 h.1
    · simp only [dictPop, if_neg hk, dictGet, if_neg hk]
      exact ih h.2

/-- C1: for every scan-result event, the connection attempt (stop scan then
non-blocking gap_connect, with the _connecting flag raised) is initiated
exactly when the advertisement payload contains the 128-bit vote-service
UUID as a contiguous byte subsequence, the address is not already tracked,
and the tracked-peer count is strictly below max_peers; when any condition
fails the manager state is unchanged and no radio operation is issued. -/
theorem C1_scan_result_gate (m : MgrState) (t : Nat) (addr adv : List Nat) :
    (handleScanResult m t addr adv
        = (⟨m.maxPeers, m.peers, m.peerAddrs, true⟩,
           [RadioOp.scanStop, RadioOp.gapConnect t addr])
      ↔ (∃ pre post, adv = pre ++ voteSvcUuidBin ++ post)
          ∧ addr ∉ m.peerAddrs ∧ m.peers.length < m.maxPeers)
    ∧ (¬ ((∃ pre post, adv = pre ++ voteSvcUuidBin ++ post)
          ∧ addr ∉ m.peerAddrs ∧ m.peers.length < m.maxPeers) →
        handleScanResult m t addr adv = (m, [])) := by
  have hiff : scanTriggers m addr adv = true ↔
      ((∃ pre post, adv = pre ++ voteSvcUuidBin ++ post)
        ∧ addr ∉ m.peerAddrs ∧ m.peers.length < m.maxPeers) := by
    simp only [scanTriggers, Bool.and_eq_true, decide_eq_true_eq,
      Bool.not_eq_true', containsBytes_iff]
    constructor
    · rintro ⟨⟨h1, h2⟩, h3⟩
      refine ⟨h2, ?_, h1⟩
      intro hm
      exact Bool.noConfusion (((listMem_iff _ _).mpr hm).symm.trans h3)
    · rintro ⟨h2, h3, h1⟩
      refine ⟨⟨h1, h2⟩, ?_⟩
      cases hlm : listMem m.peerAddrs addr
      · rfl
      · exact absurd ((listMem_iff _ _).mp hlm) h3
  constructor
  · constructor
    · intro he
      by_cases hs : scanTriggers m addr adv = true
      · exact hiff.mp hs
      · exfalso
        rw [handleScanResult, if_neg hs] at he
        have := congrArg Prod.snd he
        simp at this
    · intro hc
      rw [handleScanResult, if_pos (hiff.mpr hc)]
  · intro hc
    rw [handleScanResult, if_neg (fun hs => hc (hiff.mp hs))]

/-- C1 witness: a fresh manager, a matching advertisement. -/
theorem C1_scan_result_gate_witness :
    handleScanResult (mkMgr 2) 0 [1] voteSvcUuidBin
      = (⟨(mkMgr 2).maxPeers, (mkMgr 2).peers, (mkMgr 2).peerAddrs, true⟩,
         [RadioOp.scanStop, RadioOp.gapConnect 0 [1]]) :=
  (C1_scan_result_gate (mkMgr 2) 0 [1] voteSvcUuidBin).1.mpr
    ⟨⟨[], [], by simp⟩, by simp [mkMgr], by decide⟩

/-- C4: when characteristic discovery for a tracked peer completes with
success status and a resolved notify handle, exactly one CCCD write of the
2-byte little-endian value 1 to handle (notify handle + 1) is issued,
followed by a fast-scan restart exactly when the tracked-peer count is
still below max_peers; with non-success status or an unresolved notify
handle no write is issued and the state is unchanged. -/
theorem C4_cccd_write (m : MgrState) (conn : Nat) (p : Peer)
    (hp : dictGet m.peers conn = some p) :
    enableNotify = [1, 0]
    ∧ (∀ rx, p.rxHandle = some rx →
        handleGattcCharacteristicDone m conn 0
          = (⟨m.maxPeers, m.peers, m.peerAddrs, false⟩,
             RadioOp.gattcWrite conn (rx + 1) enableNotify 1 ::
               (if m.peers.length < m.maxPeers then [RadioOp.scanFast] else [])))
    ∧ (∀ status, status ≠ 0 →
        handleGattcCharacteristicDone m conn status = (m, []))
    ∧ (p.rxHandle = none → ∀ status,
        handleGattcCharacteristicDone m conn status = (m, [])) := by
  refine ⟨rfl, ?_, ?_, ?_⟩
  · intro rx hrx
    simp [handleGattcCharacteristicDone, hp, hrx]
  · intro status hs
    simp [handleGattcCharacteristicDone, hp, hs]
  · intro hrx status
    by_cases hs : status = 0
    · simp [handleGattcCharacteristicDone, hp, hs, hrx]
    · simp [handleGattcCharacteristicDone, hp, hs]

/-- C4 witness: one tracked peer with notify handle 5; the CCCD write goes
to handle 6 and the fast scan restarts (1 < 2 peers). -/
theorem C4_cccd_write_witness :
    handleGattcCharacteristicDone
        ⟨2, [(7, ⟨[1], 7, none, some 5, none⟩)], [[1]], true⟩ 7 0
      = (⟨2, [(7, ⟨[1], 7, none, some 5, none⟩)], [[1]], false⟩,
         [RadioOp.gattcWrite 7 6 enableNotify 1, RadioOp.scanFast]) := by
  have h := ((C4_cccd_write ⟨2, [(7, ⟨[1], 7, none, some 5, none⟩)], [[1]], true⟩
    7 ⟨[1], 7, none, some 5, none⟩ (by decide)).2.1) 5 rfl
  exact h.trans (by decide)

/-- C5: a disconnect for a tracked peer removes the peer from the map and
its address from the address list in the same handler step (under the
dict-key uniqueness Python guarantees and a unique address occurrence, no
stale entry survives) and restarts the fast scan; a disconnect for an
untracked conn_handle leaves the map and address list unchanged but still
restarts the fast scan. -/
theorem C5_disconnect_cleanup (m : MgrState) (conn t : Nat) (a : List Nat) :
    (∀ p, dictGet m.peers conn = some p →
      handlePeripheralDisconnect m conn t a
        = (⟨m.maxPeers, dictPop m.peers conn,
            removeFirst m.peerAddrs p.addr, false⟩, [RadioOp.scanFast])
      ∧ ((m.peers.map Prod.fst).Nodup →
          dictGet (dictPop m.peers conn) conn = none)
      ∧ (countVal m.peerAddrs p.addr ≤ 1 →
          p.addr ∉ removeFirst m.peerAddrs p.addr))
    ∧ (dictGet m.peers conn = none →
      handlePeripheralDisconnect m conn t a
        = (⟨m.maxPeers, m.peers, m.peerAddrs, false⟩, [RadioOp.scanFast])) := by
  constructor
  · intro p hp
    refine ⟨?_, ?_, ?_⟩
    · simp [handlePeripheralDisconnect, hp]
    · intro hnd
      exact dictGet_dictPop m.peers conn hnd
    · intro hc
      exact not_mem_removeFirst_of_count_le_one _ _ hc
  · intro hnone
    simp [handlePeripheralDisconnect, hnone]

/-- C5 witness: disconnecting the only tracked peer empties both the map
and the address list and restarts the fast scan. -/
theorem C5_disconnect_cleanup_witness :
    handlePeripheralDisconnect ⟨2, [(3, ⟨[9], 3, none, none, none⟩)], [[9]], true⟩
        3 0 []
      = (⟨2, [], [], false⟩, [RadioOp.scanFast]) := by
  have h := ((C5_disconnect_cleanup
    ⟨2, [(3, ⟨[9], 3, none, none, none⟩)], [[9]], true⟩ 3 0 []).1
    ⟨[9], 3, none, none, none⟩ (by decide)).1
  exact h.trans (by decide)

/-- C10: for a conn_handle not present in the peer map, the
service-discovery-done, characteristic-result and characteristic-done
handlers return with the manager state unchanged and no radio operation. -/
theorem C10_unknown_conn_noop (m : MgrState)
    (conn status defH valueH props : Nat) (uuid : BleUuid)
    (h : dictGet m.peers conn = none) :
    handleGattcServiceDone m conn status = (m, [])
    ∧ handleGattcCharacteristicResult m conn defH valueH props uuid = (m, [])
    ∧ handleGattcCharacteristicDone m conn status = (m, []) :=
  ⟨by simp [handleGattcServiceDone, h],
   by simp [handleGattcCharacteristicResult, h],
   by simp [handleGattcCharacteristicDone, h]⟩

/-- C10 witness: unknown conn_handle 9 on a fresh manager. -/
theorem C10_unknown_conn_noop_witness :
    (dictGet (mkMgr 2).peers 9 = none)
    ∧ (handleGattcServiceDone (mkMgr 2) 9 0 = (mkMgr 2, [])
      ∧ handleGattcCharacteristicResult (mkMgr 2) 9 1 2 3 BleUuid.voteNotify
          = (mkMgr 2, [])
      ∧ handleGattcCharacteristicDone (mkMgr 2) 9 0 = (mkMgr 2, [])) :=
  ⟨by decide, C10_unknown_conn_noop (mkMgr 2) 9 0 1 2 3 BleUuid.voteNotify
    (by decide)⟩

/-! ## C2: the radio-event transition system

A system state pairs the manager state with the environment's record of
the (at most one) in-flight connection attempt.  An event may be
delivered only under its guard: scan results are delivered only while no
attempt is in flight, and a connect event only for the attempted
address.  All other events are unconstrained. -/

inductive BleEvent where
  | scanResult (addrType : Nat) (addr advData : List Nat)
  | scanDone
  | connect (conn addrType : Nat) (addr : List Nat)
  | serviceResult (conn startH endH : Nat) (uuid : BleUuid)
  | serviceDone (conn status : Nat)
  | charResult (conn defH valueH props : Nat) (uuid : BleUuid)
  | charDone (conn status : Nat)
  | notifyEvt (conn valueH : Nat) (payload : List Nat)
  | disconnect (conn addrType : Nat) (addr : List Nat)
deriving Repr, DecidableEq

/-- BleVoteManager._irq dispatch. -/
def mgrStep (m : MgrState) : BleEvent → MgrState × List RadioOp
  | .scanResult t a d => handleScanResult m t a d
  | .scanDone => handleScanDone m
  | .connect c t a => handlePeripheralConnect m c t a
  | .serviceResult c s0 e0 u => handleGattcServiceResult m c s0 e0 u
  | .serviceDone c st => handleGattcServiceDone m c st
  | .charResult c d0 v0 pr u => handleGattcCharacteristicResult m c d0 v0 pr u
  | .charDone c st => handleGattcCharacteristicDone m c st
  | .notifyEvt c v p => handleGattcNotify m c v p
  | .disconnect c t a => handlePeripheralDisconnect m c t a

structure SysState where
  mgr : MgrState
  pending : Option (List Nat)
deriving Repr, DecidableEq

def sysStep (s : SysState) (e : BleEvent) : SysState :=
  ⟨(mgrStep s.mgr e).1,
    match e with
    | .scanResult _ a d => if scanTriggers s.mgr a d then some a else s.pending
    | .connect _ _ _ => none
    | _ => s.pending⟩

/-- Environment guard: at most one connection attempt in flight, and
connect events only follow an initiated attempt (to its address). -/
def guardB (s : SysState) : BleEvent → Bool
  | .scanResult _ _ _ => s.pending == none
  | .connect _ _ a => s.pending == some a
  | _ => true

def initSys (maxPeers : Nat) : SysState := ⟨mkMgr maxPeers, none⟩

inductive Reachable (maxPeers : Nat) : SysState → Prop where
  | init : Reachable maxPeers (initSys maxPeers)
  | step (s : SysState) (e : BleEvent) : Reachable maxPeers s →
      guardB s e = true → Reachable maxPeers (sysStep s e)

/-- Number of tracked peers whose recorded address is a. -/
def countAddr : List (Nat × Peer) → List Nat → Nat
  | [], _ => 0
  | (_, p) :: rest, a => (if p.addr = a then 1 else 0) + countAddr rest a

theorem length_dictInsert (d : List (Nat × Peer)) (k : Nat) (p : Peer) :
    (dictInsert d k p).length ≤ d.length + 1 := by
  induction d with
  | nil => simp [dictInsert]
  | cons e rest ih =>
    obtain ⟨k0, p0⟩ := e
    by_cases hk : k0 = k
    · simp [dictInsert, hk]
    · simp only [dictInsert, if_neg hk, List.length_cons]
      omega

theorem countAddr_dictInsert (d : List (Nat × Peer)) (k : Nat) (p : Peer)
    (a : List Nat) :
    countAddr (dictInsert d k p) a
      ≤ countAddr d a + (if p.addr = a then 1 else 0) := by
  induction d with
  | nil =>
    simp only [dictInsert, countAddr]
    split_ifs <;> omega
  | cons e rest ih =>
    obtain ⟨k0, p0⟩ := e
    by_cases hk : k0 = k
    · simp only [dictInsert, if_pos hk, countAddr]
      split_ifs <;> omega
    · simp only [dictInsert, if_neg hk, countAddr]
      split_ifs at ih ⊢ <;> omega

theorem length_dictPop_le (d : List (Nat × Peer)) (k : Nat) :
    (dictPop d k).length ≤ d.length := by
  induction d with
  | nil => simp [dictPop]
  | cons e rest ih =>
    obtain ⟨k0, p0⟩ := e
    by_cases hk : k0 = k
    · simp [dictPop, hk]
    · simp only [dictPop, if_neg hk, List.length_cons]
      omega

theorem countAddr_dictPop (d : List (Nat × Peer)) (k : Nat) (p : Peer)
    (a : List Nat) (h : dictGet d k = some p) :
    countAddr d a = countAddr (dictPop d k) a + (if p.addr = a then 1 else 0) := by
  induction d with
  | nil => exact absurd h (by simp [dictGet])
  | cons e rest ih =>
    obtain ⟨k0, p0⟩ := e
    by_cases hk : k0 = k
    · rw [dictGet, if_pos hk] at h
      have hpp : p0 = p := Option.some.inj h
      subst hpp
      simp only [dictPop, if_pos hk, countAddr]
      omega
    · rw [dictGet, if_neg hk] at h
      simp only [dictPop, if_neg hk, countAddr]
      rw [ih h]
      omega

theorem length_dictModify (d : List (Nat × Peer)) (k : Nat) (f : Peer → Peer) :
    (dictModify d k f).length = d.length := by
  induction d with
  | nil => rfl
  | cons e rest ih =>
    obtain ⟨k0, p0⟩ := e
    by_cases hk : k0 = k
    · simp [dictModify, hk]
    · simp only [dictModify, if_neg hk, List.length_cons]
      omega

theorem countAddr_dictModify (d : List (Nat × Peer)) (k : Nat) (f : Peer → Peer)
    (hf : ∀ q, (f q).addr = q.addr) (a : List Nat) :
    countAddr (dictModify d k f) a = countAddr d a := by
  induction d with
  | nil => rfl
  | cons e rest ih =>
    obtain ⟨k0, p0⟩ := e
    by_cases hk : k0 = k
    · simp [dictModify, hk, countAddr, hf]
    · simp [dictModify, hk, countAddr, ih]

theorem countAddr_pos_of_mem (d : List (Nat × Peer)) (k : Nat) (p : Peer)
    (h : (k, p) ∈ d) (a : List Nat) (ha : p.addr = a) : 0 < countAddr d a := by
  induction d with
  | nil => simp at h
  | cons e rest ih =>
    obtain ⟨k0, p0⟩ := e
    rcases List.mem_cons.mp h with h1 | h2
    · have h1p : p = p0 := ((Prod.mk.injEq _ _ _ _).mp h1).2
      have hp0 : p0.addr = a := by rw [← h1p]; exact ha
      simp only [countAddr, if_pos hp0]
      omega
    · have := ih h2
      simp only [countAddr]
      split_ifs <;> omega

/-- Invariant carried through the guarded event stream. -/
def SysInv (maxPeers : Nat) (s : SysState) : Prop :=
  s.mgr.maxPeers = maxPeers
  ∧ s.mgr.peers.length + (if s.pending.isSome then 1 else 0) ≤ maxPeers
  ∧ ∀ a : List Nat, countAddr s.mgr.peers a ≤ countVal s.mgr.peerAddrs a

theorem scanDone_state (m : MgrState) : (handleScanDone m).1 = m := by
  by_cases hc : m.connecting <;> simp [handleScanDone, hc]

theorem serviceDone_state (m : MgrState) (c st : Nat) :
    (handleGattcServiceDone m c st).1 = m := by
  rcases hgp : dictGet m.peers c with _ | p
  · simp [handleGattcServiceDone, hgp]
  · rcases hsv : p.svcRange with _ | ⟨r1, r2⟩
    · by_cases hs : st = 0 <;> simp [handleGattcServiceDone, hgp, hsv, hs]
    · by_cases hs : st = 0 <;> simp [handleGattcServiceDone, hgp, hsv, hs]

theorem serviceResult_effect (m : MgrState) (c s0 e0 : Nat) (u : BleUuid) :
    (handleGattcServiceResult m c s0 e0 u).1.maxPeers = m.maxPeers
    ∧ (handleGattcServiceResult m c s0 e0 u).1.peers.length = m.peers.length
    ∧ (∀ a, countAddr (handleGattcServiceResult m c s0 e0 u).1.peers a
        = countAddr m.peers a)
    ∧ (handleGattcServiceResult m c s0 e0 u).1.peerAddrs = m.peerAddrs := by
  by_cases hu : u = BleUuid.voteSvc
  · refine ⟨by simp [handleGattcServiceResult, hu], ?_, ?_, ?_⟩
    · simp [handleGattcServiceResult, hu, length_dictModify]
    · intro a
      simp only [handleGattcServiceResult, if_pos hu]
      exact countAddr_dictModify m.peers c
        (fun p => ⟨p.addr, p.connHandle, p.txHandle, p.rxHandle, some (s0, e0)⟩)
        (fun q => rfl) a
    · simp [handleGattcServiceResult, hu]
  · simp [handleGattcServiceResult, hu]

theorem charResult_effect (m : MgrState) (c d0 v0 pr : Nat) (u : BleUuid) :
    (handleGattcCharacteristicResult m c d0 v0 pr u).1.maxPeers = m.maxPeers
    ∧ (handleGattcCharacteristicResult m c d0 v0 pr u).1.peers.length
        = m.peers.length
    ∧ (∀ a, countAddr (handleGattcCharacteristicResult m c d0 v0 pr u).1.peers a
        = countAddr m.peers a)
    ∧ (handleGattcCharacteristicResult m c d0 v0 pr u).1.peerAddrs
        = m.peerAddrs := by
  rcases hgp : dictGet m.peers c with _ | p
  · simp [handleGattcCharacteristicResult, hgp]
  · by_cases h1 : u = BleUuid.voteNotify
    · refine ⟨by simp [handleGattcCharacteristicResult, hgp, h1], ?_, ?_, ?_⟩
      · simp [handleGattcCharacteristicResult, hgp, h1, length_dictModify]
      · intro a
        simp only [handleGattcCharacteristicResult, hgp, if_pos h1]
        exact countAddr_dictModify m.peers c
          (fun p => ⟨p.addr, p.connHandle, p.txHandle, some v0, p.svcRange⟩)
          (fun q => rfl) a
      · simp [handleGattcCharacteristicResult, hgp, h1]
    · by_cases h2 : u = BleUuid.voteWrite
      · refine ⟨by simp [handleGattcCharacteristicResult, hgp, h1, h2], ?_, ?_, ?_⟩
        · simp [handleGattcCharacteristicResult, hgp, h1, h2, length_dictModify]
        · intro a
          simp only [handleGattcCharacteristicResult, hgp, if_neg h1, if_pos h2]
          exact countAddr_dictModify m.peers c
            (fun p => ⟨p.addr, p.connHandle, some v0, p.rxHandle, p.svcRange⟩)
            (fun q => rfl) a
        · simp [handleGattcCharacteristicResult, hgp, h1, h2]
      · simp [handleGattcCharacteristicResult, hgp, h1, h2]

theorem charDone_effect (m : MgrState) (c st : Nat) :
    (handleGattcCharacteristicDone m c st).1.maxPeers = m.maxPeers
    ∧ (handleGattcCharacteristicDone m c st).1.peers = m.peers
    ∧ (handleGattcCharacteristicDone m c st).1.peerAddrs = m.peerAddrs := by
  rcases hgp : dictGet m.peers c with _ | p
  · simp [handleGattcCharacteristicDone, hgp]
  · rcases hrx : p.rxHandle with _ | rx
    · by_cases hs : st = 0 <;> simp [handleGattcCharacteristicDone, hgp, hrx, hs]
    · by_cases hs : st = 0 <;> simp [handleGattcCharacteristicDone, hgp, hrx, hs]

theorem disconnect_effect (m : MgrState) (c t0 : Nat) (a : List Nat) :
    (handlePeripheralDisconnect m c t0 a).1.maxPeers = m.maxPeers
    ∧ (handlePeripheralDisconnect m c t0 a).1.peers.length ≤ m.peers.length := by
  rcases hgp : dictGet m.peers c with _ | p
  · simp [handlePeripheralDisconnect, hgp]
  · refine ⟨by simp [handlePeripheralDisconnect, hgp], ?_⟩
    simp only [handlePeripheralDisconnect, hgp]
    exact length_dictPop_le m.peers c

theorem disconnect_count (m : MgrState) (c t0 : Nat) (a a2 : List Nat)
    (h : countAddr m.peers a2 ≤ countVal m.peerAddrs a2) :
    countAddr (handlePeripheralDisconnect m c t0 a).1.peers a2
      ≤ countVal (handlePeripheralDisconnect m c t0 a).1.peerAddrs a2 := by
  rcases hgp : dictGet m.peers c with _ | p
  · simpa [handlePeripheralDisconnect, hgp] using h
  · simp only [handlePeripheralDisconnect, hgp]
    have h1 := countAddr_dictPop m.peers c p a2 hgp
    have h2 := countVal_removeFirst_ge m.peerAddrs p.addr a2
    split_ifs at h1 h2 <;> omega

theorem sysInv_step (maxPeers : Nat) (s : SysState) (e : BleEvent)
    (hinv : SysInv maxPeers s) (hg : guardB s e = true) :
    SysInv maxPeers (sysStep s e) := by
  obtain ⟨hmax, hlen, haddr⟩ := hinv
  cases e with
  | scanResult t a d =>
    have hpend : s.pending = none := by simpa [guardB] using hg
    rw [hpend] at hlen
    simp only [Option.isSome_none, Bool.false_eq_true, if_false] at hlen
    by_cases ht : scanTriggers s.mgr a d = true
    · have hlt : s.mgr.peers.length < s.mgr.maxPeers := by
        have h := ht
        simp only [scanTriggers, Bool.and_eq_true, decide_eq_true_eq] at h
        exact h.1.1
      refine ⟨?_, ?_, ?_⟩
      · simp [sysStep, mgrStep, handleScanResult, ht, hmax]
      · simp only [sysStep, mgrStep, handleScanResult, if_pos ht, if_pos ht]
        simp only [Option.isSome_some, if_pos rfl]
        rw [hmax] at hlt
        simpa using hlt
      · intro a2
        simpa [sysStep, mgrStep, handleScanResult, ht] using haddr a2
    · refine ⟨?_, ?_, ?_⟩
      · simp [sysStep, mgrStep, handleScanResult, ht, hmax]
      · simp only [sysStep, mgrStep, handleScanResult, if_neg ht, if_neg ht, hpend]
        simpa using hlen
      · intro a2
        simpa [sysStep, mgrStep, handleScanResult, ht] using haddr a2
  | scanDone =>
    refine ⟨?_, ?_, ?_⟩
    · simpa [sysStep, mgrStep, scanDone_state] using hmax
    · simpa [sysStep, mgrStep, scanDone_state] using hlen
    · intro a2
      simpa [sysStep, mgrStep, scanDone_state] using haddr a2
  | connect c t a =>
    have hpend : s.pending = some a := by
      simpa [guardB] using hg
    rw [hpend] at hlen
    have hlen2 : s.mgr.peers.length + 1 ≤ maxPeers := by simpa using hlen
    refine ⟨?_, ?_, ?_⟩
    · simp [sysStep, mgrStep, handlePeripheralConnect, hmax]
    · have h1 := length_dictInsert s.mgr.peers c ⟨a, (c : Int), none, none, none⟩
      simp only [sysStep, mgrStep, handlePeripheralConnect, Option.isSome_none,
        Bool.false_eq_true, if_false]
      omega
    · intro a2
      have h1 := countAddr_dictInsert s.mgr.peers c
        ⟨a, (c : Int), none, none, none⟩ a2
      have h2 := haddr a2
      have h3 : countVal (s.mgr.peerAddrs ++ [a]) a2
          = countVal s.mgr.peerAddrs a2 + (if a = a2 then 1 else 0) := by
        rw [countVal_append]
        simp [countVal]
      simp only [sysStep, mgrStep, handlePeripheralConnect, h3]
      simp only at h1
      split_ifs at h1 ⊢ <;> omega
  | serviceResult c s0 e0 u =>
    obtain ⟨e1, e2, e3, e4⟩ := serviceResult_effect s.mgr c s0 e0 u
    refine ⟨?_, ?_, ?_⟩
    · simpa [sysStep, mgrStep, e1] using hmax
    · simpa [sysStep, mgrStep, e2] using hlen
    · intro a2
      have := haddr a2
      simp only [sysStep, mgrStep, e3, e4]
      exact this
  | serviceDone c st =>
    refine ⟨?_, ?_, ?_⟩
    · simpa [sysStep, mgrStep, serviceDone_state] using hmax
    · simpa [sysStep, mgrStep, serviceDone_state] using hlen
    · intro a2
      simpa [sysStep, mgrStep, serviceDone_state] using haddr a2
  | charResult c d0 v0 pr u =>
    obtain ⟨e1, e2, e3, e4⟩ := charResult_effect s.mgr c d0 v0 pr u
    refine ⟨?_, ?_, ?_⟩
    · simpa [sysStep, mgrStep, e1] using hmax
    · simpa [sysStep, mgrStep, e2] using hlen
    · intro a2
      have := haddr a2
      simp only [sysStep, mgrStep, e3, e4]
      exact this
  | charDone c st =>
    obtain ⟨e1, e2, e3⟩ := charDone_effect s.mgr c st
    refine ⟨?_, ?_, ?_⟩
    · simpa [sysStep, mgrStep, e1] using hmax
    · simpa [sysStep, mgrStep, e2] using hlen
    · intro a2
      have := haddr a2
      simp only [sysStep, mgrStep, e2, e3]
      exact this
  | notifyEvt c v p =>
    refine ⟨?_, ?_, ?_⟩
    · simpa [sysStep, mgrStep, handleGattcNotify] using hmax
    · simpa [sysStep, mgrStep, handleGattcNotify] using hlen
    · intro a2
      simpa [sysStep, mgrStep, handleGattcNotify] using haddr a2
  | disconnect c t a =>
    obtain ⟨e1, e2⟩ := disconnect_effect s.mgr c t a
    refine ⟨?_, ?_, ?_⟩
    · simpa [sysStep, mgrStep] using e1.trans hmax
    · have : (sysStep s (BleEvent.disconnect c t a)).mgr.peers.length
          ≤ s.mgr.peers.length := by
        simpa [sysStep, mgrStep] using e2
      simp only [sysStep, mgrStep] at this ⊢
      split_ifs at hlen ⊢ <;> omega
    · intro a2
      have := disconnect_count s.mgr c t a a2 (haddr a2)
      simpa [sysStep, mgrStep] using this

theorem reachable_inv (maxPeers : Nat) (s : SysState)
    (h : Reachable maxPeers s) : SysInv maxPeers s := by
  induction h with
  | init =>
    refine ⟨rfl, by simp [initSys, mkMgr], ?_⟩
    intro a
    simp [initSys, mkMgr, countAddr, countVal]
  | step s0 e h0 hg ih => exact sysInv_step maxPeers s0 e ih hg

/-- C2: in every state reachable from the initial manager state under the
guarded radio-event stream (at most one connection attempt in flight;
connect events only follow an initiated attempt), the number of tracked
peers never exceeds max_peers, and no connection is ever initiated to an
address already recorded for a tracked peer. -/
theorem C2_peer_bound_invariant (maxPeers : Nat) (s : SysState)
    (h : Reachable maxPeers s) :
    s.mgr.peers.length ≤ maxPeers
    ∧ (∀ t addr adv, guardB s (BleEvent.scanResult t addr adv) = true →
        RadioOp.gapConnect t addr
            ∈ (mgrStep s.mgr (BleEvent.scanResult t addr adv)).2 →
        ∀ kp ∈ s.mgr.peers, kp.2.addr ≠ addr) := by
  obtain ⟨hmax, hlen, haddr⟩ := reachable_inv maxPeers s h
  constructor
  · split_ifs at hlen <;> omega
  · intro t addr adv hg hmem kp hkp
    by_cases ht : scanTriggers s.mgr addr adv = true
    · have hnm : listMem s.mgr.peerAddrs addr = false := by
        have h2 := ht
        simp only [scanTriggers, Bool.and_eq_true, Bool.not_eq_true'] at h2
        exact h2.2
      have h0 : countVal s.mgr.peerAddrs addr = 0 := by
        apply countVal_eq_zero_of_not_mem
        intro hm
        exact Bool.noConfusion (((listMem_iff _ _).mpr hm).symm.trans hnm)
      have h1 := haddr addr
      rw [h0] at h1
      intro heq
      have h4 := countAddr_pos_of_mem s.mgr.peers kp.1 kp.2 hkp addr heq
      omega
    · rw [mgrStep, handleScanResult, if_neg ht] at hmem
      simp at hmem

/-- C2 witness: the invariant instantiated at the initial state with
max_peers = 2. -/
theorem C2_peer_bound_invariant_witness :
    (initSys 2).mgr.peers.length ≤ 2
    ∧ (∀ t addr adv,
        guardB (initSys 2) (BleEvent.scanResult t addr adv) = true →
        RadioOp.gapConnect t addr
            ∈ (mgrStep (initSys 2).mgr (BleEvent.scanResult t addr adv)).2 →
        ∀ kp ∈ (initSys 2).mgr.peers, kp.2.addr ≠ addr) :=
  C2_peer_bound_invariant 2 (initSys 2) Reachable.init

/-! ## Peripheral controller (src/controller/ble_vote_controller.py)

The connected set holds conn_handles in slot order.  BleVoteController.send
iterates over the set calling gatts_notify; an OSError for a silently
dropped link is caught and the identifier discarded from the set.
MicroPython set deletion during iteration tombstones the slot of the
already-visited current element, so the remaining iteration still visits
exactly the other original elements. -/

structure CtrlState where
  connections : List Nat
  txHandle : Nat
deriving Repr, DecidableEq

/-- The visit loop of BleVoteController.send: drops is the set of
identifiers whose gatts_notify raises OSError (link silently dropped).
Returns the surviving connection list and the delivered notifies as
(conn, value_handle, payload) triples. -/
def sendVisit (drops : List Nat) (tx : Nat) (msg : List Nat) :
    List Nat → List Nat × List (Nat × Nat × List Nat)
  | [] => ([], [])
  | c :: rest =>
    if listMem drops c then sendVisit drops tx msg rest
    else (c :: (sendVisit drops tx msg rest).1,
      (c, tx, msg) :: (sendVisit drops tx msg rest).2)

/-- BleVoteController.send. -/
def CtrlState.send (s : CtrlState) (drops : List Nat) (msg : List Nat) :
    CtrlState × List (Nat × Nat × List Nat) :=
  (⟨(sendVisit drops s.txHandle msg s.connections).1, s.txHandle⟩,
    (sendVisit drops s.txHandle msg s.connections).2)

theorem sendVisit_spec (tx : Nat) (msg : List Nat) (bad : Nat) :
    ∀ l : List Nat, l.Nodup →
      (bad ∉ (sendVisit [bad] tx msg l).1)
      ∧ (∀ c, c ∉ l → countVal (sendVisit [bad] tx msg l).2 (c, tx, msg) = 0)
      ∧ (∀ c ∈ l, c ≠ bad → c ∈ (sendVisit [bad] tx msg l).1
          ∧ countVal (sendVisit [bad] tx msg l).2 (c, tx, msg) = 1)
      ∧ (∀ d ∈ (sendVisit [bad] tx msg l).2, d.1 ≠ bad)
  | [], _ => by simp [sendVisit, countVal]
  | c0 :: rest, hnd => by
    obtain ⟨hc0, hndr⟩ := List.nodup_cons.mp hnd
    obtain ⟨ha, h0, hb, hc⟩ := sendVisit_spec tx msg bad rest hndr
    have hmemb : listMem [bad] c0 = true ↔ bad = c0 := by
      rw [listMem_iff]
      simp [eq_comm]
    by_cases hdrop : bad = c0
    · have hlm : listMem [bad] c0 = true := hmemb.mpr hdrop
      refine ⟨?_, ?_, ?_, ?_⟩
      · simpa [sendVisit, hlm] using ha
      · intro c hcm
        have : c ∉ rest := fun h2 => hcm (List.mem_cons_of_mem _ h2)
        simpa [sendVisit, hlm] using h0 c this
      · intro c hcm hcb
        rcases List.mem_cons.mp hcm with h1 | h2
        · exact absurd (h1.trans hdrop.symm) hcb
        · simpa [sendVisit, hlm] using hb c h2 hcb
      · intro d hd
        exact hc d (by simpa [sendVisit, hlm] using hd)
    · have hlm : listMem [bad] c0 = false := by
        cases hx : listMem [bad] c0
        · rfl
        · exact absurd (hmemb.mp hx) hdrop
      have hne0 : c0 ≠ bad := fun h => hdrop h.symm
      refine ⟨?_, ?_, ?_, ?_⟩
      · simp only [sendVisit, hlm, Bool.false_eq_true, if_false, List.mem_cons,
          not_or]
        exact ⟨hdrop, ha⟩
      · intro c hcm
        have hcr : c ∉ rest := fun h2 => hcm (List.mem_cons_of_mem _ h2)
        have hcc : ¬ ((c0, tx, msg) = (c, tx, msg)) := by
          intro h
          exact hcm (by rw [← ((Prod.mk.injEq _ _ _ _).mp h).1]; exact
            List.mem_cons_self _ _)
        simp only [sendVisit, hlm, Bool.false_eq_true, if_false, countVal,
          if_neg hcc]
        simpa using h0 c hcr
      · intro c hcm hcb
        rcases List.mem_cons.mp hcm with h1 | h2
        · have hstep : (sendVisit [bad] tx msg (c0 :: rest)).2
              = (c0, tx, msg) :: (sendVisit [bad] tx msg rest).2 := by
            simp [sendVisit, hlm]
          have hz : countVal (sendVisit [bad] tx msg rest).2 (c, tx, msg) = 0 := by
            apply h0
            rw [h1]
            exact hc0
          refine ⟨by rw [h1]; simp [sendVisit, hlm], ?_⟩
          rw [hstep]
          simp only [countVal]
          rw [if_pos (by rw [h1]), hz]
        · have hcc : ¬ ((c0, tx, msg) = (c, tx, msg)) := by
            intro h
            rw [((Prod.mk.injEq _ _ _ _).mp h).1] at hc0
            exact hc0 h2
          obtain ⟨hm1, hm2⟩ := hb c h2 hcb
          refine ⟨by simp [sendVisit, hlm]; exact Or.inr hm1, ?_⟩
          simp only [sendVisit, hlm, Bool.false_eq_true, if_false, countVal,
            if_neg hcc]
          simpa using hm2
      · intro d hd
        simp only [sendVisit, hlm, Bool.false_eq_true, if_false,
          List.mem_cons] at hd
        rcases hd with h1 | h2
        · rw [h1]
          exact hne0
        · exact hc d h2

/-- C6: when send(bytes) is called with at least two connected identifiers
and exactly one of them fails with OSError (its link silently dropped),
the failing identifier is evicted from the connected set, every other
connected identifier still receives exactly one notify, no notify goes to
the failing identifier, and the call completes (the OSError is caught). -/
theorem C6_send_evicts_failed (s : CtrlState) (bad : Nat) (msg : List Nat)
    (hmem : bad ∈ s.connections) (hnodup : s.connections.Nodup)
    (hlen : 2 ≤ s.connections.length) :
    bad ∉ (s.send [bad] msg).1.connections
    ∧ (∀ c ∈ s.connections, c ≠ bad →
        c ∈ (s.send [bad] msg).1.connections
        ∧ countVal (s.send [bad] msg).2 (c, s.txHandle, msg) = 1)
    ∧ (∀ d ∈ (s.send [bad] msg).2, d.1 ≠ bad) := by
  obtain ⟨ha, h0, hb, hc⟩ := sendVisit_spec s.txHandle msg bad s.connections hnodup
  exact ⟨ha, hb, hc⟩

/-- C6 witness: two connected identifiers 4 and 8, identifier 4 drops. -/
theorem C6_send_evicts_failed_witness :
    (4 ∈ (⟨[4, 8], 3⟩ : CtrlState).connections
      ∧ (⟨[4, 8], 3⟩ : CtrlState).connections.Nodup
      ∧ 2 ≤ (⟨[4, 8], 3⟩ : CtrlState).connections.length)
    ∧ (4 ∉ ((⟨[4, 8], 3⟩ : CtrlState).send [4] [1]).1.connections
      ∧ (∀ c ∈ (⟨[4, 8], 3⟩ : CtrlState).connections, c ≠ 4 →
          c ∈ ((⟨[4, 8], 3⟩ : CtrlState).send [4] [1]).1.connections
          ∧ countVal ((⟨[4, 8], 3⟩ : CtrlState).send [4] [1]).2
              (c, (⟨[4, 8], 3⟩ : CtrlState).txHandle, [1]) = 1)
      ∧ (∀ d ∈ ((⟨[4, 8], 3⟩ : CtrlState).send [4] [1]).2, d.1 ≠ 4)) :=
  ⟨⟨by decide, by decide, by decide⟩,
    C6_send_evicts_failed ⟨[4, 8], 3⟩ 4 [1] (by decide) (by decide) (by decide)⟩

/-! ## Command / vote payload encodings (src/common/consts.py) and
the attribute names their consumers reference -/

/-- Python bytes(n): n zero bytes. -/
def pyBytes (n : Nat) : List Nat := List.replicate n 0

namespace VoteCommand

def START : List Nat := pyBytes 0

def STOP : List Nat := pyBytes 1

def INDICATE_YES : List Nat := pyBytes 2

def INDICATE_NO : List Nat := pyBytes 3

end VoteCommand

namespace VoteInfo

def YES : List Nat := pyBytes 0

def NO : List Nat := pyBytes 1

end VoteInfo

/-- The attribute names defined on class VoteCommand in src/common/consts.py. -/
def voteCommandAttrs : List String :=
  ["START", "STOP", "INDICATE_YES", "INDICATE_NO"]

/-- The VoteCommand attribute names the controller's consume_queue branches
on (src/controller/main.py lines 35-49), in branch order. -/
def consumeQueueBranchAttrs : List String :=
  ["START", "STOP", "INDICATE_YES", "INDICATE_NO", "INDICATE_NONE"]

/-- The VoteCommand attribute VoteSession.reset broadcasts
(src/central/vote_session.py line 134). -/
def voteSessionResetAttr : String := "INDICATE_NONE"

/-- The method and attribute names defined on class BleVoteManager
(src/central/ble_vote_manager.py). -/
def bleVoteManagerMethods : List String :=
  ["__init__", "_scan_fast_briefly", "_scan_slow_forever", "send", "broadcast",
   "_handle_scan_result", "_handle_scan_done", "_handle_peripheral_connect",
   "_handle_gattc_service_result", "_handle_gattc_service_done",
   "_handle_gattc_characteristic_result", "_handle_gattc_characteristic_done",
   "_handle_gattc_notify", "_handle_peripheral_disconnect", "_irq", "_addr_hex",
   "_ble", "_on_rx", "_max_peers", "_peers", "_peer_addrs", "_connecting"]

/-- Manager attributes accessed by VoteSession (src/central/vote_session.py
lines 87, 100, 126, 134, 136, 163) and central main. -/
def voteSessionManagerAttrs : List String :=
  ["stop_scanning", "broadcast", "resume_scanning", "num_peers"]

/-- C8 (code bug): the consumers branch on five command names, but class
VoteCommand defines only four — INDICATE_NONE, referenced by the
controller's consume_queue and broadcast by VoteSession.reset, does not
exist, so those references raise AttributeError; moreover bytes(n) makes
START the empty byte string.  The four values that are defined, and the
two vote values, are pairwise distinct. -/
theorem C8_command_enum_gap :
    voteSessionResetAttr ∈ consumeQueueBranchAttrs
    ∧ voteSessionResetAttr ∉ voteCommandAttrs
    ∧ VoteCommand.START = []
    ∧ [VoteCommand.START, VoteCommand.STOP, VoteCommand.INDICATE_YES,
        VoteCommand.INDICATE_NO].Pairwise (· ≠ ·)
    ∧ VoteInfo.YES ≠ VoteInfo.NO := by
  refine ⟨by decide, by decide, rfl, ?_, by decide⟩
  decide

/-- C7 (code bug): the scan-control operations stop_scanning and
resume_scanning (and the num_peers attribute) that VoteSession and the
central main call on the manager are not defined on BleVoteManager, so
the calls raise AttributeError instead of pausing and resuming
discovery. -/
theorem C7_scan_control_missing :
    "stop_scanning" ∈ voteSessionManagerAttrs
    ∧ "resume_scanning" ∈ voteSessionManagerAttrs
    ∧ "stop_scanning" ∉ bleVoteManagerMethods
    ∧ "resume_scanning" ∉ bleVoteManagerMethods
    ∧ "num_peers" ∉ bleVoteManagerMethods :=
  ⟨by decide, by decide, by decide, by decide, by decide⟩

end PixelPoll
